import Mathlib

/-!
Shallow embedding of the `batcher` Go package (request-batching coalescer)
and its HTTP front end (`http-batching-service/main.go`).

Payloads (`interface{}` in Go) are modelled by a type parameter `α`.
Go strings are byte sequences, modelled as `List Nat`.
Channels of capacity one are modelled by an explicit buffer list plus a
closed flag; runtime panics (send on a closed channel, close of a closed
channel, nil-pointer dereference) are modelled explicitly.
The concurrent system is modelled as a labelled transition system whose
atomic steps are exactly the mutex-protected critical sections of the Go
code plus the (lock-free) fan-out of a dispatched batch.
-/

namespace Batcher

/-- Go strings are byte sequences. -/
abbrev GoStr : Type := List Nat

/-- Bytes of the Go string literal "Received `nil` request". -/
def msgNilRequest : GoStr :=
  [82, 101, 99, 101, 105, 118, 101, 100, 32, 96, 110, 105, 108, 96, 32, 114, 101, 113, 117, 101, 115, 116]

/-- Bytes of the Go string literal "Timeout period should be longer than batch timout, "
(the prefix of the message before the formatted duration; the misspelling
"timout" is the source's). -/
def msgTimeoutTooShortPre : GoStr :=
  [84, 105, 109, 101, 111, 117, 116, 32, 112, 101, 114, 105, 111, 100, 32, 115, 104, 111, 117, 108, 100, 32, 98, 101, 32, 108, 111, 110, 103, 101, 114, 32, 116, 104, 97, 110, 32, 98, 97, 116, 99, 104, 32, 116, 105, 109, 111, 117, 116, 44, 32]

/-- Bytes of the Go string literal "Failed to register request". -/
def msgFailedToRegister : GoStr :=
  [70, 97, 105, 108, 101, 100, 32, 116, 111, 32, 114, 101, 103, 105, 115, 116, 101, 114, 32, 114, 101, 113, 117, 101, 115, 116]

/-- Bytes of the Go string literal "Request timeout after " (prefix before the
formatted duration). -/
def msgRequestTimeoutPre : GoStr :=
  [82, 101, 113, 117, 101, 115, 116, 32, 116, 105, 109, 101, 111, 117, 116, 32, 97, 102, 116, 101, 114, 32]

/-- Bytes of the Go string literal "API error". -/
def msgAPIError : GoStr :=
  [65, 80, 73, 32, 101, 114, 114, 111, 114]

/-- Bytes of the Go string literal "timeout" (the substring `RootHandler`
searches for). -/
def subTimeout : GoStr :=
  [116, 105, 109, 101, 111, 117, 116]

/-- The errors the batcher and front end can observe.  Each constructor
corresponds to one `fmt.Errorf` site of the source (the formatted duration
`%v` is carried as an opaque byte string), plus `handlerErr` for an error
returned by the user-supplied `SendF`. -/
inductive GoErr : Type where
  /-- "Received `nil` request" (SendRequestWithTimeout). -/
  | nilRequest : GoErr
  /-- "Timeout period should be longer than batch timout, %v". -/
  | timeoutTooShort (dur : GoStr) : GoErr
  /-- "Failed to register request". -/
  | failedToRegister : GoErr
  /-- "Request timeout after %v". -/
  | requestTimeout (dur : GoStr) : GoErr
  /-- "API error" (SendF returned a wrong number of entries). -/
  | apiError : GoErr
  /-- An error returned by the user-supplied SendF, with its message. -/
  | handlerErr (msg : GoStr) : GoErr
  deriving DecidableEq, Repr

/-- `err.Error()`: the message bytes of a `GoErr`. -/
def GoErr.errError : GoErr → GoStr
  | .nilRequest => msgNilRequest
  | .timeoutTooShort dur => msgTimeoutTooShortPre ++ dur
  | .failedToRegister => msgFailedToRegister
  | .requestTimeout dur => msgRequestTimeoutPre ++ dur
  | .apiError => msgAPIError
  | .handlerErr msg => msg

/-- Is this error one of the synchronous-rejection (invalid argument) errors? -/
def GoErr.isInvalidArgument : GoErr → Bool
  | .nilRequest => true
  | .timeoutTooShort _ => true
  | _ => false

/-- Is this error the per-caller timeout error ("Request timeout after %v")? -/
def GoErr.isRequestTimeout : GoErr → Bool
  | .requestTimeout _ => true
  | _ => false

/-- `singleResponse`: a single response received from SendF. -/
structure singleResponse (α : Type) : Type where
  body : Option α
  err : Option GoErr
  deriving DecidableEq, Repr

/-- `batchSubscriber`: the request body together with the response channel
(identified by a ghost channel id) created for it. -/
structure batchSubscriber (α : Type) : Type where
  singleRequestBody : α
  respCh : Nat
  deriving DecidableEq, Repr

/-- `startedBatch`: a batch awaiting more requests (the `timer` field of the
source is modelled by the always-enabled timer-fire event of the transition
system, so it does not appear in the state). -/
structure startedBatch (α : Type) : Type where
  body : List α
  subscribers : List (batchSubscriber α)
  deriving DecidableEq, Repr

/-- A Go channel of capacity one, with ghost bookkeeping: `payload` records
the request body of the caller that owns the receiving end. -/
structure GoChan (α : Type) : Type where
  buf : List (singleResponse α)
  closed : Bool
  payload : Option α
  deriving DecidableEq, Repr

/-- `BatchingConfig`.  `SendF` models the user-supplied batch handler as a
function from the batch body to either an error (with its message) or the
response slice.  `BatchTimeout` is a `time.Duration` (int64 nanoseconds). -/
structure BatchingConfig (α : Type) : Type where
  MaxBatchSize : Nat
  BatchTimeout : Int
  SendF : List α → Except GoStr (List α)

/-- The whole system state: the `RequestBatcher` fields (`running`,
`curBatch`), the set of detached batches whose `send` goroutine has not yet
run (`inflight`), the channel store, the history of completed `SendF`
invocations (input batch and SendF result), and a flag recording whether a
runtime panic has occurred. -/
structure Sys (α : Type) : Type where
  running : Bool
  curBatch : Option (startedBatch α)
  inflight : List (startedBatch α)
  chans : Nat → GoChan α
  nextChan : Nat
  history : List (startedBatch α × Except GoStr (List α))
  panicked : Bool

/-- The initial state produced by `NewRequestBatcher`. -/
def init {α : Type} : Sys α :=
  { running := true
    curBatch := none
    inflight := []
    chans := fun _ => ⟨[], false, none⟩
    nextChan := 0
    history := []
    panicked := false }

/-- `registerRequest`: the mutex-protected critical section of registering a
new request.  Returns the updated state and the Go return value
`(<-chan *singleResponse, error)`.  `sendCurBatch` (pop `curBatch` and spawn
`send`) is modelled by moving the batch onto the `inflight` list. -/
def registerRequest {α : Type} (cfg : BatchingConfig α) (s : Sys α) (v : α) :
    Sys α × Except GoErr Nat :=
  let c := s.nextChan
  let chans' := fun i => if i = c then (⟨[], false, some v⟩ : GoChan α) else s.chans i
  let sub : batchSubscriber α := ⟨v, c⟩
  let s' := { s with chans := chans', nextChan := c + 1 }
  match s.curBatch with
  | some batch =>
    if batch.body.length < cfg.MaxBatchSize then
      let batch' : startedBatch α :=
        ⟨batch.body ++ [v], batch.subscribers ++ [sub]⟩
      if cfg.MaxBatchSize ≤ batch'.body.length then
        ({ s' with curBatch := none, inflight := s.inflight ++ [batch'] }, .ok c)
      else
        ({ s' with curBatch := some batch' }, .ok c)
    else
      ({ s' with curBatch := some ⟨[v], [sub]⟩,
                 inflight := s.inflight ++ [batch] }, .ok c)
  | none =>
    ({ s' with curBatch := some ⟨[v], [sub]⟩ }, .ok c)

/-- `sendCurBatchWithSafety`: the timer callback.  Pops `curBatch` under the
mutex and spawns `send` on it; a no-op when there is no current batch. -/
def sendCurBatchWithSafety {α : Type} (s : Sys α) : Sys α :=
  match s.curBatch with
  | some batch => { s with curBatch := none, inflight := s.inflight ++ [batch] }
  | none => s

/-- Close a list of channels in order (`close(...)` in a loop).  Closing an
already-closed channel is a Go runtime panic; the fold stops there and
reports it. -/
def closeAll {α : Type} (chans : Nat → GoChan α) :
    List Nat → (Nat → GoChan α) × Bool
  | [] => (chans, false)
  | c :: rest =>
    if (chans c).closed then (chans, true)
    else
      closeAll
        (fun i => if i = c then { chans c with closed := true } else chans i)
        rest

/-- `stop`: mark the batcher stopped and, when an open batch exists, close
every subscriber's response channel (in reverse order) without publishing a
value.  Faithful to the source: `curBatch` is NOT cleared. -/
def stop {α : Type} (s : Sys α) : Sys α :=
  let s' := { s with running := false }
  match s.curBatch with
  | some batch =>
    let r := closeAll s'.chans ((batch.subscribers.map batchSubscriber.respCh).reverse)
    { s' with chans := r.1, panicked := s'.panicked || r.2 }
  | none => s'

/-- Publish a list of `(channel, response)` pairs: for each pair, send the
response into the channel and then close it (the `respCh <- ...; close(...)`
pattern of `send`).  A send on a closed channel is a Go runtime panic; the
fold stops there and reports it. -/
def publishAll {α : Type} (chans : Nat → GoChan α) :
    List (Nat × singleResponse α) → (Nat → GoChan α) × Bool
  | [] => (chans, false)
  | (c, r) :: rest =>
    if (chans c).closed then (chans, true)
    else
      publishAll
        (fun i => if i = c then
            (⟨(chans c).buf ++ [r], true, (chans c).payload⟩ : GoChan α)
          else chans i)
        rest

/-- The `(channel, response)` pairs that `send` publishes for a batch, given
the SendF result, in the order the source publishes them (reverse subscriber
order; on success subscriber `i` is paired with response element `i`). -/
def fanoutList {α : Type} (batch : startedBatch α)
    (res : Except GoStr (List α)) : List (Nat × singleResponse α) :=
  match res with
  | .error e =>
    (batch.subscribers.reverse).map
      (fun sub => (sub.respCh, ⟨none, some (.handlerErr e)⟩))
  | .ok out =>
    if out.length = batch.body.length then
      ((batch.subscribers.zip out).reverse).map
        (fun p => (p.1.respCh, ⟨some p.2, none⟩))
    else
      (batch.subscribers.reverse).map
        (fun sub => (sub.respCh, ⟨none, some .apiError⟩))

/-- The response `send` delivers to subscriber index `i` of a batch whose
body has length `blen`, given the SendF result. -/
def fanoutResp {α : Type} (res : Except GoStr (List α)) (blen i : Nat) :
    Option (singleResponse α) :=
  match res with
  | .error e => some ⟨none, some (.handlerErr e)⟩
  | .ok out =>
    if out.length = blen then
      (out[i]?).map (fun v => (⟨some v, none⟩ : singleResponse α))
    else
      some ⟨none, some .apiError⟩

/-- `send`: invoke SendF on a detached batch and fan the result out to the
subscribers.  Appends the invocation to the history. -/
def send {α : Type} (cfg : BatchingConfig α) (s : Sys α)
    (batch : startedBatch α) : Sys α :=
  let res := cfg.SendF batch.body
  let r := publishAll s.chans (fanoutList batch res)
  { s with chans := r.1
           panicked := s.panicked || r.2
           history := s.history ++ [(batch, res)] }

/-- The events of the system: a caller whose arguments passed validation
reaches `registerRequest`; the batch timer fires (`sendCurBatchWithSafety`);
the `send` goroutine of a detached batch runs; the parent context is
cancelled (the watcher goroutine calls `stop`). -/
inductive Ev (α : Type) : Type where
  | submit (v : α) : Ev α
  | timerFire : Ev α
  | run (i : Nat) : Ev α
  | ctxCancel : Ev α

/-- One atomic step of the system. -/
def step {α : Type} (cfg : BatchingConfig α) (s : Sys α) : Ev α → Option (Sys α)
  | .submit v => some (registerRequest cfg s v).1
  | .timerFire => some (sendCurBatchWithSafety s)
  | .run i =>
    match s.inflight[i]? with
    | some b => some (send cfg { s with inflight := s.inflight.eraseIdx i } b)
    | none => none
  | .ctxCancel => if s.running then some (stop s) else none

/-- Reachability from the initial state. -/
inductive Reachable {α : Type} (cfg : BatchingConfig α) : Sys α → Prop where
  | init : Reachable cfg init
  | step {s s' : Sys α} {e : Ev α} :
      Reachable cfg s → step cfg s e = some s' → Reachable cfg s'

/-- Run a list of events from a state. -/
def runTrace {α : Type} (cfg : BatchingConfig α) : Sys α → List (Ev α) → Option (Sys α)
  | s, [] => some s
  | s, e :: rest =>
    match step cfg s e with
    | some s' => runTrace cfg s' rest
    | none => none

/-- States produced by running a trace from a reachable state are reachable. -/
theorem reachable_runTrace {α : Type} (cfg : BatchingConfig α)
    (evs : List (Ev α)) (s s' : Sys α) (hs : Reachable cfg s)
    (h : runTrace cfg s evs = some s') : Reachable cfg s' := by
  induction evs generalizing s with
  | nil => cases h; exact hs
  | cons e rest ih =>
    unfold runTrace at h
    cases he : step cfg s e with
    | none => rw [he] at h; cases h
    | some s1 =>
      rw [he] at h
      exact ih s1 (Reachable.step hs he) h

/-- The synchronous prefix of `SendRequestWithTimeout`: validation of the
arguments followed by `registerRequest`.  `fmtDur` models Go's rendering of
a `time.Duration` as a string.  Returns the updated state and either the
channel to wait on or the error returned to the caller. -/
def SendRequestWithTimeout_register {α : Type} (cfg : BatchingConfig α)
    (fmtDur : Int → GoStr) (s : Sys α) (newRequestBody : Option α)
    (timeout : Int) : Sys α × Except GoErr Nat :=
  match newRequestBody with
  | none => (s, .error .nilRequest)
  | some v =>
    if timeout ≤ cfg.BatchTimeout then
      (s, .error (.timeoutTooShort (fmtDur cfg.BatchTimeout)))
    else
      match registerRequest cfg s v with
      | (s', .ok c) => (s', .ok c)
      | (s', .error _) => (s', .error .failedToRegister)

/-- The outcome of a `SendRequestWithTimeout` call once it is unblocked. -/
inductive CallResult (α : Type) : Type where
  /-- `return resp.body, nil`. -/
  | ok (v : Option α) : CallResult α
  /-- `return nil, err`. -/
  | err (e : GoErr) : CallResult α
  /-- Runtime panic: `resp.err` dereferences the nil pointer received from a
  closed channel. -/
  | goPanic : CallResult α
  deriving DecidableEq, Repr

/-- What `case resp := <-respCh:` does once the receive fires: take the
buffered pointer if any; on a closed empty channel the receive yields `nil`
and `resp.err` panics. -/
def recvResult {α : Type} (ch : GoChan α) : CallResult α :=
  match ch.buf with
  | r :: _ =>
    match r.err with
    | some e => .err e
    | none => .ok r.body
  | [] => .goPanic

/-- The `select` of `SendRequestWithTimeout`: `none` when neither case is
ready (the caller stays blocked).  When both the channel receive and
`ctx.Done()` are ready Go picks nondeterministically; `pickCh` resolves the
race. -/
def awaitResponse {α : Type} (fmtDur : Int → GoStr) (ch : GoChan α)
    (ctxDone : Bool) (timeout : Int) (pickCh : Bool) :
    Option (CallResult α) :=
  let chReady := !ch.buf.isEmpty || ch.closed
  if chReady && ctxDone then
    if pickCh then some (recvResult ch)
    else some (.err (.requestTimeout (fmtDur timeout)))
  else if chReady then some (recvResult ch)
  else if ctxDone then some (.err (.requestTimeout (fmtDur timeout)))
  else none

/-- Go's `strings.Contains(s, sub)` on byte strings. -/
def goStringsContains (s sub : GoStr) : Bool :=
  match s with
  | [] => sub.isEmpty
  | _ :: rest => sub.isPrefixOf s || goStringsContains rest sub

/-- The status code `RootHandler` responds with when the coalescer submission
returned an error: 408 when the message contains "timeout", 400 otherwise. -/
def RootHandler_errStatus (e : GoErr) : Nat :=
  if goStringsContains e.errError subTimeout then 408 else 400

/-- The request body `main.go`'s `SendF` builds for the backend from a batch
of byte-slice payloads: `'['`, the first item, then `','` and each further
item, then `']'`.  `none` models the index-out-of-range panic on an empty
batch (`(*batchReq)[0]`). -/
def SendF_buildBody : List GoStr → Option GoStr
  | [] => none
  | r0 :: rest =>
    some ([91] ++ r0 ++ rest.flatMap (fun r => 44 :: r) ++ [93])

/-- A JSON array of raw byte elements as the spec words it: the elements
joined by `','`, wrapped in `'['` and `']'`. -/
def jsonArrayOfRaw (rs : List GoStr) : GoStr :=
  [91] ++ (List.intercalate [44] rs) ++ [93]

end Batcher

namespace Batcher

deriving instance DecidableEq for Except

/-! ### Shared helper lemmas about `goStringsContains` -/

/-- "Request timeout after " followed by anything contains "timeout". -/
theorem goStringsContains_requestTimeoutPre (d : GoStr) :
    goStringsContains (msgRequestTimeoutPre ++ d) subTimeout = true := by
  simp [msgRequestTimeoutPre, subTimeout, goStringsContains, List.isPrefixOf]

/-- Searching "Timeout period should be longer than batch timout, " ++ d for
"timeout" reduces to searching d: no occurrence lies in or straddles the
fixed part. -/
theorem goStringsContains_timeoutTooShortPre (d : GoStr) :
    goStringsContains (msgTimeoutTooShortPre ++ d) subTimeout =
      goStringsContains d subTimeout := by
  simp [msgTimeoutTooShortPre, subTimeout, goStringsContains, List.isPrefixOf]

/-- A byte string without the byte 't' (116) does not contain "timeout". -/
theorem goStringsContains_eq_false_of_no_t (d : GoStr) (hd : 116 ∉ d) :
    goStringsContains d subTimeout = false := by
  induction d with
  | nil => rfl
  | cons a rest ih =>
    simp only [goStringsContains, Bool.or_eq_false_iff]
    constructor
    · have ha : (116 : Nat) ≠ a := fun h => hd (h ▸ List.mem_cons_self a rest)
      simp [subTimeout, List.isPrefixOf, ha]
    · exact ih (fun h => hd (List.mem_cons_of_mem a h))

/-! ### Shared concrete instances used to exercise the model -/

/-- A concrete config: `MaxBatchSize = 2`, `BatchTimeout = 10`, identity
handler (the `dummySendF` of the package's tests). -/
def cfgId2 : BatchingConfig Nat := ⟨2, 10, fun l => .ok l⟩

/-- A duration rendering that maps every duration to "30ms"
(bytes 51, 48, 109, 115) — Go duration strings never contain 't'. -/
def fmtDur30ms : Int → GoStr := fun _ => [51, 48, 109, 115]

/-! ### C8: backend request body -/

/-- Joining byte slices with `','` as the spec words it equals the loop of
`main.go`'s `SendF`. -/
theorem intercalate_comma_eq_flatMap (r0 : GoStr) (rest : List GoStr) :
    List.intercalate [44] (r0 :: rest) = r0 ++ rest.flatMap (fun r => 44 :: r) := by
  induction rest generalizing r0 with
  | nil => simp [List.intercalate]
  | cons r1 rest ih =>
    have h := ih r1
    simp only [List.intercalate, List.intersperse] at h ⊢
    simp [h]

/-- C8: for every non-empty batch of byte-slice payloads, the request body
`SendF` builds for the backend is exactly the JSON array of the raw
submission bytes in batch order, delimited by `'['`, `','`, `']'`. -/
theorem c8_backend_body_is_json_array (r0 : GoStr) (rest : List GoStr) :
    SendF_buildBody (r0 :: rest) = some (jsonArrayOfRaw (r0 :: rest)) := by
  simp [SendF_buildBody, jsonArrayOfRaw, intercalate_comma_eq_flatMap]

/-! ### C6: synchronous rejection of invalid arguments -/

/-- C6: `SendRequestWithTimeout` with a nil body pointer or with
`timeout ≤ BatchTimeout` returns an invalid-argument error synchronously and
leaves the whole system state exactly unchanged. -/
theorem c6_invalid_args_rejected_synchronously {α : Type}
    (cfg : BatchingConfig α) (fmtDur : Int → GoStr) (s : Sys α)
    (body : Option α) (t : Int) (h : body = none ∨ t ≤ cfg.BatchTimeout) :
    (SendRequestWithTimeout_register cfg fmtDur s body t).1 = s ∧
    ∃ e, (SendRequestWithTimeout_register cfg fmtDur s body t).2 = .error e ∧
      e.isInvalidArgument = true := by
  cases body with
  | none => exact ⟨rfl, ⟨GoErr.nilRequest, rfl, rfl⟩⟩
  | some v =>
    rcases h with h | h
    · cases h
    · have hre : SendRequestWithTimeout_register cfg fmtDur s (some v) t
          = (s, .error (.timeoutTooShort (fmtDur cfg.BatchTimeout))) := by
        unfold SendRequestWithTimeout_register
        simp [h]
      rw [hre]
      exact ⟨rfl, ⟨GoErr.timeoutTooShort (fmtDur cfg.BatchTimeout), rfl, rfl⟩⟩

/-- Witness for C6 at a concrete input (nil body, and separately a timeout
equal to the batch timeout). -/
theorem c6_witness :
    ((SendRequestWithTimeout_register cfgId2 fmtDur30ms init none 100).1 = init ∧
      ∃ e, (SendRequestWithTimeout_register cfgId2 fmtDur30ms init none 100).2
          = .error e ∧ e.isInvalidArgument = true) ∧
    ((SendRequestWithTimeout_register cfgId2 fmtDur30ms init (some 3) 10).1 = init ∧
      ∃ e, (SendRequestWithTimeout_register cfgId2 fmtDur30ms init (some 3) 10).2
          = .error e ∧ e.isInvalidArgument = true) :=
  ⟨c6_invalid_args_rejected_synchronously cfgId2 fmtDur30ms init none 100
      (Or.inl rfl),
   c6_invalid_args_rejected_synchronously cfgId2 fmtDur30ms init (some 3) 10
      (Or.inr (by decide))⟩

/-! ### C10: registerRequest never fails -/

/-- C10: `registerRequest` returns a nil error on every path, so a call of
`SendRequestWithTimeout` whose arguments pass validation always proceeds to
wait on its response channel and never returns the registration-failure
error. -/
theorem c10_register_never_fails {α : Type} (cfg : BatchingConfig α)
    (s : Sys α) (v : α) :
    (registerRequest cfg s v).2 = .ok s.nextChan ∧
    (∀ (fmtDur : Int → GoStr) (t : Int), cfg.BatchTimeout < t →
      (SendRequestWithTimeout_register cfg fmtDur s (some v) t).2
        = .ok s.nextChan) := by
  have hreg : (registerRequest cfg s v).2 = .ok s.nextChan := by
    unfold registerRequest
    cases s.curBatch with
    | none => rfl
    | some batch =>
      by_cases hlt : batch.body.length < cfg.MaxBatchSize
      · simp only [if_pos hlt]
        by_cases hfull : cfg.MaxBatchSize ≤ batch.body.length + 1
        · simp [List.length_append, hfull]
        · simp [List.length_append, hfull]
      · simp [hlt]
  refine ⟨hreg, fun fmtDur t ht => ?_⟩
  have hnle : ¬ t ≤ cfg.BatchTimeout := not_le.mpr ht
  simp only [SendRequestWithTimeout_register, if_neg hnle]
  cases hr : registerRequest cfg s v with
  | mk s1 r =>
    rw [hr] at hreg
    simp only at hreg
    subst hreg
    rfl

/-- Witness for C10 at a concrete input. -/
theorem c10_witness :
    (registerRequest cfgId2 init 7).2 = .ok (init (α := Nat)).nextChan ∧
    (∀ (fmtDur : Int → GoStr) (t : Int), cfgId2.BatchTimeout < t →
      (SendRequestWithTimeout_register cfgId2 fmtDur init (some 7) t).2
        = .ok (init (α := Nat)).nextChan) :=
  c10_register_never_fails cfgId2 init 7

/-! ### C3 evidence: a stopped batcher still registers requests -/

/-- C3 fails on the code: `registerRequest` never reads the `running` flag,
so after `stop` a new `SendRequestWithTimeout` call with valid arguments
still registers and opens a fresh batch; the caller then blocks and — since
the parent context is already cancelled — gets the "Request timeout" error,
never a Stopped error (no such error exists in the code). -/
theorem c3_stopped_batcher_still_registers :
    (stop (init (α := Nat))).running = false ∧
    (SendRequestWithTimeout_register cfgId2 fmtDur30ms (stop init) (some 7) 11).2
      = .ok 0 ∧
    (SendRequestWithTimeout_register cfgId2 fmtDur30ms (stop init) (some 7) 11).1.curBatch
      = some ⟨[7], [⟨7, 0⟩]⟩ ∧
    ((SendRequestWithTimeout_register cfgId2 fmtDur30ms (stop init) (some 7) 11).1.chans 0)
      = ⟨[], false, some 7⟩ ∧
    awaitResponse fmtDur30ms (⟨[], false, some 7⟩ : GoChan Nat) true 11 true
      = some (.err (.requestTimeout (fmtDur30ms 11))) ∧
    awaitResponse fmtDur30ms (⟨[], false, some 7⟩ : GoChan Nat) true 11 false
      = some (.err (.requestTimeout (fmtDur30ms 11))) := by
  decide

/-! ### C4 evidence: a shutdown waiter panics instead of getting Stopped -/

/-- C4 fails on the code: after `stop` closes a waiter's response channel
without a value, the waiter's `resp := <-respCh` receives a nil pointer and
`resp.err` is a nil dereference — a runtime panic; in the race where
`ctx.Done()` is picked instead, the caller gets the "Request timeout" error.
Neither outcome is a Stopped error. -/
theorem c4_shutdown_waiter_panics :
    ((runTrace cfgId2 init [.submit 7, .ctxCancel]).map
        (fun s => ((s.chans 0).buf, (s.chans 0).closed)) = some ([], true)) ∧
    recvResult (α := Nat) ⟨[], true, some 7⟩ = .goPanic ∧
    awaitResponse fmtDur30ms (⟨[], true, some 7⟩ : GoChan Nat) true 60 true
      = some .goPanic ∧
    awaitResponse fmtDur30ms (⟨[], true, some 7⟩ : GoChan Nat) true 60 false
      = some (.err (.requestTimeout (fmtDur30ms 60))) := by
  decide

/-! ### C2 evidence: a channel closed by stop is sent to by a later dispatch -/

/-- C2 fails on the code: `stop` closes the open batch's channels but leaves
the batch attached, so a timer callback that already fired (or a post-stop
size-triggered dispatch) detaches it and `send` performs a send on a closed
channel — a runtime panic. -/
theorem c2_stop_then_dispatch_panics :
    (runTrace cfgId2 init [.submit 5, .ctxCancel, .timerFire, .run 0]).map
      (fun s => (s.panicked, (s.chans 0).closed, (s.chans 0).buf.isEmpty))
      = some (true, true, true) := by
  decide

/-! ### C9: status-code mapping of the HTTP front end -/

/-- C9 as stated is false: a handler error (SendF error) whose message
contains "timeout" — e.g. the message "timeout" itself, as a backend dial
error like "dial tcp: i/o timeout" would produce — is mapped to 408 even
though it is not the per-caller Timeout error. -/
theorem c9_counterexample_handler_timeout :
    RootHandler_errStatus (.handlerErr subTimeout) = 408 ∧
    (GoErr.handlerErr subTimeout).isRequestTimeout = false ∧
    (GoErr.handlerErr subTimeout).isInvalidArgument = false := by
  decide

/-- The duration strings embedded in an error as Go renders them never
contain the byte 't': this predicate records that side condition (trivial
for every constructor that embeds no duration in a message scanned for
"timeout"). -/
def GoErr.durRenderOk : GoErr → Prop
  | .timeoutTooShort d => 116 ∉ d
  | _ => True

/-- C9 amended: the front end responds 408 exactly when the error's message
contains the substring "timeout"; that is the case for the per-caller
Timeout error always, for no InvalidArgument / ProtocolMismatch /
registration error, but also for any HandlerError whose own message
contains "timeout". -/
theorem c9_amended_status_mapping (e : GoErr) (he : e.durRenderOk) :
    RootHandler_errStatus e = 408 ↔
      (e.isRequestTimeout = true ∨
        ∃ m, e = .handlerErr m ∧ goStringsContains m subTimeout = true) := by
  cases e with
  | nilRequest =>
    have h : goStringsContains (GoErr.errError .nilRequest) subTimeout = false := by
      decide
    simp [RootHandler_errStatus, h, GoErr.isRequestTimeout]
  | failedToRegister =>
    have h : goStringsContains (GoErr.errError .failedToRegister) subTimeout
        = false := by decide
    simp [RootHandler_errStatus, h, GoErr.isRequestTimeout]
  | apiError =>
    have h : goStringsContains (GoErr.errError .apiError) subTimeout = false := by
      decide
    simp [RootHandler_errStatus, h, GoErr.isRequestTimeout]
  | requestTimeout d =>
    have h := goStringsContains_requestTimeoutPre d
    simp [RootHandler_errStatus, GoErr.errError, h, GoErr.isRequestTimeout]
  | timeoutTooShort d =>
    have h1 := goStringsContains_timeoutTooShortPre d
    have h2 := goStringsContains_eq_false_of_no_t d he
    simp [RootHandler_errStatus, GoErr.errError, h1, h2, GoErr.isRequestTimeout]
  | handlerErr m =>
    by_cases hc : goStringsContains m subTimeout = true
    · simp [RootHandler_errStatus, GoErr.errError, hc, GoErr.isRequestTimeout]
    · simp only [Bool.not_eq_true] at hc
      simp [RootHandler_errStatus, GoErr.errError, hc, GoErr.isRequestTimeout]

/-- Witness for the amended C9 at concrete inputs: the Timeout error with a
rendered duration maps to 408, and the too-short-timeout InvalidArgument
message maps to 400. -/
theorem c9_witness :
    (RootHandler_errStatus (.requestTimeout (fmtDur30ms 60)) = 408 ↔
      ((GoErr.requestTimeout (fmtDur30ms 60)).isRequestTimeout = true ∨
        ∃ m, GoErr.requestTimeout (fmtDur30ms 60) = .handlerErr m ∧
          goStringsContains m subTimeout = true)) ∧
    (RootHandler_errStatus (.timeoutTooShort (fmtDur30ms 10)) = 408 ↔
      ((GoErr.timeoutTooShort (fmtDur30ms 10)).isRequestTimeout = true ∨
        ∃ m, GoErr.timeoutTooShort (fmtDur30ms 10) = .handlerErr m ∧
          goStringsContains m subTimeout = true)) :=
  ⟨c9_amended_status_mapping (.requestTimeout (fmtDur30ms 60)) trivial,
   c9_amended_status_mapping (.timeoutTooShort (fmtDur30ms 10))
     (by show (116 : Nat) ∉ ([51, 48, 109, 115] : GoStr); decide)⟩

end Batcher

namespace Batcher

/-! ### The reachability invariant -/

/-- All batches the system currently tracks: the open batch, the detached
batches whose `send` has not yet run, and the batches of completed `send`s. -/
def sysBatches {α : Type} (s : Sys α) : List (startedBatch α) :=
  s.curBatch.toList ++ s.inflight ++ s.history.map Prod.fst

/-- The channel ids of a batch's subscribers, in subscriber order. -/
def batchChans {α : Type} (b : startedBatch α) : List Nat :=
  b.subscribers.map batchSubscriber.respCh

/-- All channel ids mentioned by any tracked batch. -/
def sysChans {α : Type} (s : Sys α) : List Nat :=
  (sysBatches s).flatMap batchChans

/-- The inductive invariant of the transition system. -/
structure Inv {α : Type} (cfg : BatchingConfig α) (s : Sys α) : Prop where
  /-- A batch's body is exactly its subscribers' request bodies, in order. -/
  align : ∀ b ∈ sysBatches s,
    b.body = b.subscribers.map batchSubscriber.singleRequestBody
  /-- Every tracked batch is non-empty. -/
  size_lb : ∀ b ∈ sysBatches s, 1 ≤ b.body.length
  /-- Every tracked batch has at most `max MaxBatchSize 1` elements. -/
  size_ub : ∀ b ∈ sysBatches s, b.body.length ≤ max cfg.MaxBatchSize 1
  /-- Mentioned channels were allocated. -/
  fresh : ∀ c ∈ sysChans s, c < s.nextChan
  /-- No channel belongs to two subscriber slots. -/
  nodup : (sysChans s).Nodup
  /-- A subscriber's channel records that subscriber's request body. -/
  payload : ∀ b ∈ sysBatches s, ∀ sub ∈ b.subscribers,
    (s.chans sub.respCh).payload = some sub.singleRequestBody
  /-- History entries record the actual SendF result for their batch. -/
  histRes : ∀ e ∈ s.history, e.2 = cfg.SendF e.1.body
  /-- Every buffered response was fanned out, at its subscriber's index, by
  the unique completed SendF invocation owning the channel. -/
  bufProv : ∀ c : Nat, ∀ r ∈ (s.chans c).buf,
    ∃ (k : Nat) (b : startedBatch α) (res : Except GoStr (List α)) (i : Nat)
      (sub : batchSubscriber α),
    s.history[k]? = some (b, res) ∧ b.subscribers[i]? = some sub ∧
    sub.respCh = c ∧ fanoutResp res b.body.length i = some r
  /-- Unallocated channels are pristine. -/
  pristine : ∀ c : Nat, s.nextChan ≤ c →
    s.chans c = (⟨[], false, none⟩ : GoChan α)

/-- A list is a permutation of any of its elements consed onto its
`eraseIdx` at that element's position. -/
theorem perm_cons_eraseIdx {β : Type} {l : List β} {i : Nat} {b : β}
    (h : l[i]? = some b) : l.Perm (b :: l.eraseIdx i) := by
  induction l generalizing i with
  | nil => simp at h
  | cons a l ih =>
    cases i with
    | zero =>
      simp only [List.getElem?_cons_zero, Option.some_inj] at h
      subst h
      simp [List.eraseIdx]
    | succ i =>
      simp only [List.getElem?_cons_succ] at h
      have h1 : (a :: l).Perm (a :: (b :: l.eraseIdx i)) := (ih h).cons a
      have h2 : (a :: (b :: l.eraseIdx i)).Perm (b :: (a :: l.eraseIdx i)) :=
        List.Perm.swap b a _
      have h3 : (a :: l).eraseIdx (i + 1) = a :: l.eraseIdx i := rfl
      rw [h3]
      exact h1.trans h2

/-! ### Behaviour of `publishAll` -/

/-- `publishAll` leaves channels it was not asked to publish to unchanged. -/
theorem publishAll_of_not_mem {α : Type}
    (pairs : List (Nat × singleResponse α)) (chans : Nat → GoChan α)
    {c : Nat} (hc : ∀ p ∈ pairs, p.1 ≠ c) :
    (publishAll chans pairs).1 c = chans c := by
  induction pairs generalizing chans with
  | nil => rfl
  | cons p rest ih =>
    obtain ⟨c', r⟩ := p
    have hcc : c ≠ c' := fun h =>
      hc (c', r) (List.mem_cons_self _ _) h.symm
    simp only [publishAll]
    split
    · rfl
    · rw [ih _ (fun q hq => hc q (List.mem_cons_of_mem _ hq))]
      simp [hcc]

/-- `publishAll` never changes a channel's ghost payload. -/
theorem publishAll_payload {α : Type}
    (pairs : List (Nat × singleResponse α)) (chans : Nat → GoChan α)
    (c : Nat) :
    ((publishAll chans pairs).1 c).payload = (chans c).payload := by
  induction pairs generalizing chans with
  | nil => rfl
  | cons p rest ih =>
    obtain ⟨c', r⟩ := p
    simp only [publishAll]
    split
    · rfl
    · rw [ih]
      by_cases h : c = c' <;> simp [h]

/-- Every response buffered after `publishAll` was either already buffered
or is one of the published pairs. -/
theorem publishAll_buf_mem {α : Type}
    (pairs : List (Nat × singleResponse α)) (chans : Nat → GoChan α)
    (c : Nat) (r : singleResponse α)
    (h : r ∈ ((publishAll chans pairs).1 c).buf) :
    r ∈ (chans c).buf ∨ (c, r) ∈ pairs := by
  induction pairs generalizing chans with
  | nil => exact Or.inl h
  | cons p rest ih =>
    obtain ⟨c', r'⟩ := p
    simp only [publishAll] at h
    split at h
    · exact Or.inl h
    · rcases ih _ h with hbuf | hpair
      · by_cases hc : c = c'
        · subst hc
          simp only [if_pos rfl] at hbuf
          rcases List.mem_append.mp hbuf with h1 | h1
          · exact Or.inl h1
          · simp only [List.mem_singleton] at h1
            subst h1
            exact Or.inr (List.mem_cons_self _ _)
        · simp only [if_neg hc] at hbuf
          exact Or.inl hbuf
      · exact Or.inr (List.mem_cons_of_mem _ hpair)

/-- When the published channels are distinct and all open, `publishAll`
panics nowhere, and delivers to each channel exactly its pair's response and
closes it. -/
theorem publishAll_exact {α : Type}
    (pairs : List (Nat × singleResponse α)) (chans : Nat → GoChan α)
    (hnd : (pairs.map Prod.fst).Nodup)
    (hopen : ∀ p ∈ pairs, (chans p.1).closed = false) :
    (publishAll chans pairs).2 = false ∧
    ∀ p ∈ pairs, (publishAll chans pairs).1 p.1 =
      ⟨(chans p.1).buf ++ [p.2], true, (chans p.1).payload⟩ := by
  induction pairs generalizing chans with
  | nil => exact ⟨rfl, fun p hp => absurd hp (List.not_mem_nil p)⟩
  | cons p rest ih =>
    obtain ⟨c, r⟩ := p
    have hco : (chans c).closed = false := hopen (c, r) (List.mem_cons_self _ _)
    simp only [publishAll, hco]
    simp only [Bool.false_eq_true, if_false]
    set chans' := fun i =>
      if i = c then (⟨(chans c).buf ++ [r], true, (chans c).payload⟩ : GoChan α)
      else chans i with hchans'
    have hnd' : c ∉ rest.map Prod.fst ∧ (rest.map Prod.fst).Nodup := by
      rw [List.map_cons, List.nodup_cons] at hnd
      exact hnd
    have hfst_ne : ∀ q ∈ rest, q.1 ≠ c := by
      intro q hq h
      exact hnd'.1 (by rw [← h]; exact List.mem_map_of_mem Prod.fst hq)
    have hrest_open : ∀ q ∈ rest, (chans' q.1).closed = false := by
      intro q hq
      simp only [hchans', if_neg (hfst_ne q hq)]
      exact hopen q (List.mem_cons_of_mem _ hq)
    obtain ⟨hp2, hp1⟩ := ih chans' hnd'.2 hrest_open
    refine ⟨hp2, ?_⟩
    intro q hq
    rcases List.mem_cons.mp hq with hq | hq
    · subst hq
      rw [publishAll_of_not_mem rest chans' hfst_ne]
      simp [hchans']
    · rw [hp1 q hq]
      simp [hchans', hfst_ne q hq]

/-! ### Behaviour of `closeAll` -/

/-- `closeAll` leaves channels not in its list unchanged. -/
theorem closeAll_of_not_mem {α : Type} (cs : List Nat)
    (chans : Nat → GoChan α) {c : Nat} (hc : c ∉ cs) :
    (closeAll chans cs).1 c = chans c := by
  induction cs generalizing chans with
  | nil => rfl
  | cons c' rest ih =>
    have hcc : c ≠ c' := fun h => hc (h ▸ List.mem_cons_self _ _)
    simp only [closeAll]
    split
    · rfl
    · rw [ih _ (fun h => hc (List.mem_cons_of_mem _ h))]
      simp [hcc]

/-- `closeAll` never changes a channel's buffer or ghost payload. -/
theorem closeAll_buf_payload {α : Type} (cs : List Nat)
    (chans : Nat → GoChan α) (c : Nat) :
    ((closeAll chans cs).1 c).buf = (chans c).buf ∧
    ((closeAll chans cs).1 c).payload = (chans c).payload := by
  induction cs generalizing chans with
  | nil => exact ⟨rfl, rfl⟩
  | cons c' rest ih =>
    simp only [closeAll]
    split
    · exact ⟨rfl, rfl⟩
    · obtain ⟨h1, h2⟩ := ih (fun i =>
        if i = c' then { chans c' with closed := true } else chans i)
      rw [h1, h2]
      by_cases h : c = c' <;> simp [h]

end Batcher

namespace Batcher

/-! ### Behaviour of `fanoutList` -/

/-- The channels `send` publishes to are exactly the batch's subscriber
channels (in reverse order), provided subscribers and body agree in length. -/
theorem fanoutList_map_fst {α : Type} (batch : startedBatch α)
    (res : Except GoStr (List α))
    (hlen : batch.subscribers.length = batch.body.length) :
    (fanoutList batch res).map Prod.fst = (batchChans batch).reverse := by
  cases res with
  | error e =>
    simp only [fanoutList, batchChans, List.map_map, List.map_reverse]
    rfl
  | ok out =>
    by_cases hl : out.length = batch.body.length
    · simp only [fanoutList, batchChans, if_pos hl, List.map_map, List.map_reverse]
      have hz : (batch.subscribers.zip out).map Prod.fst = batch.subscribers :=
        List.map_fst_zip _ _ (by rw [hlen, hl])
      conv_rhs => rw [← hz, List.map_map]
      rfl
    · simp only [fanoutList, batchChans, if_neg hl, List.map_map, List.map_reverse]
      rfl

/-- Every pair `send` publishes is addressed to a subscriber of the batch at
some index, and carries exactly the response `fanoutResp` assigns to that
index. -/
theorem fanoutList_mem {α : Type} {batch : startedBatch α}
    {res : Except GoStr (List α)} {c : Nat} {r : singleResponse α}
    (h : (c, r) ∈ fanoutList batch res) :
    ∃ (i : Nat) (sub : batchSubscriber α),
      batch.subscribers[i]? = some sub ∧ sub.respCh = c ∧
      fanoutResp res batch.body.length i = some r := by
  unfold fanoutList at h
  match res with
  | .error e =>
    simp only [List.mem_map, List.mem_reverse] at h
    obtain ⟨sub, hsub, heq⟩ := h
    obtain ⟨i, hi⟩ := List.mem_iff_getElem?.mp hsub
    obtain ⟨h1, h2⟩ := Prod.mk.injEq .. ▸ heq
    exact ⟨i, sub, hi, by simp_all [fanoutResp], by simp_all [fanoutResp]⟩
  | .ok out =>
    by_cases hl : out.length = batch.body.length
    · simp only [if_pos hl, List.mem_map, List.mem_reverse] at h
      obtain ⟨p, hp, heq⟩ := h
      obtain ⟨i, hi⟩ := List.mem_iff_getElem?.mp hp
      obtain ⟨hi1, hi2⟩ := List.getElem?_zip_eq_some.mp hi
      obtain ⟨h1, h2⟩ := Prod.mk.injEq .. ▸ heq
      refine ⟨i, p.1, hi1, h1, ?_⟩
      rw [← h2]
      simp [fanoutResp, if_pos hl, hi2]
    · simp only [if_neg hl, List.mem_map, List.mem_reverse] at h
      obtain ⟨sub, hsub, heq⟩ := h
      obtain ⟨i, hi⟩ := List.mem_iff_getElem?.mp hsub
      obtain ⟨h1, h2⟩ := Prod.mk.injEq .. ▸ heq
      refine ⟨i, sub, hi, h1, ?_⟩
      simp only [fanoutResp, if_neg hl]
      rw [← h2]

/-- On a success result of matching length, subscriber `j` is published
exactly response element `j`. -/
theorem fanoutList_ok_pair {α : Type} {batch : startedBatch α} {out : List α}
    (hlen : out.length = batch.body.length)
    (hslen : batch.subscribers.length = batch.body.length)
    {j : Nat} {sub : batchSubscriber α}
    (hj : batch.subscribers[j]? = some sub) :
    ∃ v, out[j]? = some v ∧
      (sub.respCh, (⟨some v, none⟩ : singleResponse α)) ∈
        fanoutList batch (.ok out) := by
  have hjlt : j < batch.subscribers.length := by
    rcases List.getElem?_eq_some.mp hj with ⟨hlt, _⟩
    exact hlt
  have hjout : j < out.length := by rw [hlen, ← hslen]; exact hjlt
  obtain ⟨v, hv⟩ : ∃ v, out[j]? = some v := by
    rcases List.getElem?_eq_some.mpr ⟨hjout, rfl⟩ with h
    exact ⟨_, h⟩
  refine ⟨v, hv, ?_⟩
  unfold fanoutList
  simp only [if_pos hlen, List.mem_map, List.mem_reverse]
  refine ⟨(sub, v), ?_, rfl⟩
  exact List.mem_iff_getElem?.mpr
    ⟨j, List.getElem?_zip_eq_some.mpr ⟨hj, hv⟩⟩

/-! ### Uniqueness from `Nodup` of a flattened list -/

/-- In a duplicate-free flattened list, an element determines the chunk it
came from. -/
theorem nodup_flatMap_eq_of_mem {β γ : Type} {L : List β} {f : β → List γ}
    (h : (L.flatMap f).Nodup) {k k' : Nat} {b b' : β} {x : γ}
    (hk : L[k]? = some b) (hk' : L[k']? = some b')
    (hx : x ∈ f b) (hx' : x ∈ f b') : k = k' := by
  induction L generalizing k k' with
  | nil => simp at hk
  | cons b0 L ih =>
    rw [List.flatMap_cons] at h
    obtain ⟨h0, hL, hdisj⟩ := List.nodup_append.mp h
    match k, k' with
    | 0, 0 => rfl
    | 0, k' + 1 =>
      simp only [List.getElem?_cons_zero, Option.some_inj] at hk
      subst hk
      simp only [List.getElem?_cons_succ] at hk'
      have hb' : b' ∈ L := List.getElem?_mem hk'
      exact absurd (List.mem_flatMap.mpr ⟨b', hb', hx'⟩) (fun hm => hdisj hx hm)
    | k + 1, 0 =>
      simp only [List.getElem?_cons_zero, Option.some_inj] at hk'
      subst hk'
      simp only [List.getElem?_cons_succ] at hk
      have hb : b ∈ L := List.getElem?_mem hk
      exact absurd (List.mem_flatMap.mpr ⟨b, hb, hx⟩) (fun hm => hdisj hx' hm)
    | k + 1, k' + 1 =>
      simp only [List.getElem?_cons_succ] at hk hk'
      exact congrArg Nat.succ (ih hL hk hk')

/-- In a duplicate-free flattened list, each chunk is duplicate-free. -/
theorem nodup_flatMap_chunk {β γ : Type} {L : List β} {f : β → List γ}
    (h : (L.flatMap f).Nodup) {b : β} (hb : b ∈ L) : (f b).Nodup := by
  induction L with
  | nil => cases hb
  | cons b0 L ih =>
    rw [List.flatMap_cons] at h
    obtain ⟨h0, hL, _⟩ := List.nodup_append.mp h
    rcases List.mem_cons.mp hb with hb | hb
    · subst hb; exact h0
    · exact ih hL hb

end Batcher

namespace Batcher

/-! ### Preservation of the invariant -/

/-- The invariant transfers along any state change that permutes the tracked
batches and keeps channels, allocation counter and history. -/
theorem inv_congr {α : Type} {cfg : BatchingConfig α} {s s' : Sys α}
    (hs : Inv cfg s) (hb : (sysBatches s').Perm (sysBatches s))
    (hchans : s'.chans = s.chans) (hnext : s'.nextChan = s.nextChan)
    (hhist : s'.history = s.history) : Inv cfg s' := by
  have hc : (sysChans s').Perm (sysChans s) := hb.flatMap_right batchChans
  refine ⟨?_, ?_, ?_, ?_, ?_, ?_, ?_, ?_, ?_⟩
  · exact fun b hbm => hs.align b (hb.mem_iff.mp hbm)
  · exact fun b hbm => hs.size_lb b (hb.mem_iff.mp hbm)
  · exact fun b hbm => hs.size_ub b (hb.mem_iff.mp hbm)
  · intro x hx
    rw [hnext]
    exact hs.fresh x (hc.mem_iff.mp hx)
  · exact hc.nodup_iff.mpr hs.nodup
  · intro b hbm sub hsub
    rw [hchans]
    exact hs.payload b (hb.mem_iff.mp hbm) sub hsub
  · intro e he
    rw [hhist] at he
    exact hs.histRes e he
  · intro c r hr
    rw [hchans] at hr
    rw [hhist]
    exact hs.bufProv c r hr
  · intro c hcge
    rw [hchans]
    rw [hnext] at hcge
    exact hs.pristine c hcge

/-- The timer callback preserves the invariant. -/
theorem inv_sendCurBatchWithSafety {α : Type} {cfg : BatchingConfig α}
    {s : Sys α} (hs : Inv cfg s) : Inv cfg (sendCurBatchWithSafety s) := by
  unfold sendCurBatchWithSafety
  cases hcur : s.curBatch with
  | none => exact hs
  | some batch =>
    refine inv_congr hs ?_ rfl rfl rfl
    simp only [sysBatches, hcur, Option.toList_some, Option.toList_none,
      List.nil_append, List.singleton_append, List.cons_append]
    exact (List.perm_append_singleton _ _).append_right _

/-- `stop` on a state with no open batch just lowers the running flag. -/
theorem stop_eq_none {α : Type} {s : Sys α} (hcur : s.curBatch = none) :
    stop s = { s with running := false } := by
  unfold stop
  rw [hcur]

/-- `stop` on a state with an open batch lowers the running flag and closes
the batch's subscriber channels in reverse order, leaving the batch
attached. -/
theorem stop_eq_some {α : Type} {s : Sys α} {batch : startedBatch α}
    (hcur : s.curBatch = some batch) :
    stop s =
      { s with
          running := false,
          chans := (closeAll s.chans
            ((batch.subscribers.map batchSubscriber.respCh).reverse)).1,
          panicked := s.panicked || (closeAll s.chans
            ((batch.subscribers.map batchSubscriber.respCh).reverse)).2 } := by
  unfold stop
  rw [hcur]

/-- `stop` preserves the invariant. -/
theorem inv_stop {α : Type} {cfg : BatchingConfig α} {s : Sys α}
    (hs : Inv cfg s) : Inv cfg (stop s) := by
  cases hcur : s.curBatch with
  | none =>
    rw [stop_eq_none hcur]
    exact ⟨hs.align, hs.size_lb, hs.size_ub, hs.fresh, hs.nodup, hs.payload,
      hs.histRes, hs.bufProv, hs.pristine⟩
  | some batch =>
    rw [stop_eq_some hcur]
    have hbatch_mem : batch ∈ sysBatches s := by
      simp [sysBatches, hcur]
    have hlt : ∀ y ∈ (batch.subscribers.map batchSubscriber.respCh).reverse,
        y < s.nextChan := by
      intro y hy
      rw [List.mem_reverse] at hy
      exact hs.fresh y (List.mem_flatMap.mpr ⟨batch, hbatch_mem, hy⟩)
    refine ⟨hs.align, hs.size_lb, hs.size_ub, hs.fresh, hs.nodup, ?_,
      hs.histRes, ?_, ?_⟩
    · intro b hbm sub hsub
      rw [(closeAll_buf_payload _ s.chans sub.respCh).2]
      exact hs.payload b hbm sub hsub
    · intro c r hr
      rw [(closeAll_buf_payload _ s.chans c).1] at hr
      exact hs.bufProv c r hr
    · intro c hcge
      have h1 : (closeAll s.chans
          ((batch.subscribers.map batchSubscriber.respCh).reverse)).1 c
            = s.chans c :=
        closeAll_of_not_mem _ s.chans
          (fun hmem => absurd hcge (not_le.mpr (hlt c hmem)))
      dsimp only at hcge ⊢
      rw [h1]
      exact hs.pristine c hcge

end Batcher

namespace Batcher

/-- `send` written as an explicit record update. -/
theorem send_eq {α : Type} (cfg : BatchingConfig α) (s : Sys α)
    (batch : startedBatch α) :
    send cfg s batch =
      { s with
          chans := (publishAll s.chans
            (fanoutList batch (cfg.SendF batch.body))).1,
          panicked := s.panicked || (publishAll s.chans
            (fanoutList batch (cfg.SendF batch.body))).2,
          history := s.history ++ [(batch, cfg.SendF batch.body)] } := rfl

/-- Running the `send` goroutine of a detached batch preserves the
invariant. -/
theorem inv_run {α : Type} {cfg : BatchingConfig α} {s : Sys α} {i : Nat}
    {b : startedBatch α} (hs : Inv cfg s) (hb : s.inflight[i]? = some b) :
    Inv cfg (send cfg { s with inflight := s.inflight.eraseIdx i } b) := by
  rw [send_eq]
  have hbmem : b ∈ sysBatches s := by
    have hmem : b ∈ s.inflight := List.getElem?_mem hb
    simp [sysBatches, List.mem_append, hmem]
  have hslen : b.subscribers.length = b.body.length := by
    rw [hs.align b hbmem]
    simp
  have hkeys : ∀ p ∈ fanoutList b (cfg.SendF b.body), p.1 < s.nextChan := by
    intro p hp
    have h1 : p.1 ∈ (fanoutList b (cfg.SendF b.body)).map Prod.fst :=
      List.mem_map_of_mem Prod.fst hp
    rw [fanoutList_map_fst b _ hslen, List.mem_reverse] at h1
    exact hs.fresh p.1 (List.mem_flatMap.mpr ⟨b, hbmem, h1⟩)
  -- the tracked batches are merely rearranged
  have h1 : s.inflight.Perm (b :: s.inflight.eraseIdx i) := perm_cons_eraseIdx hb
  have hsB : (sysBatches s).Perm
      (b :: (s.curBatch.toList ++ s.inflight.eraseIdx i ++ s.history.map Prod.fst)) := by
    have h2 := (h1.append_left s.curBatch.toList).append_right (s.history.map Prod.fst)
    refine h2.trans ?_
    exact List.perm_middle.append_right _
  have hs'B : (sysBatches
      { s with
          inflight := s.inflight.eraseIdx i,
          chans := (publishAll s.chans (fanoutList b (cfg.SendF b.body))).1,
          panicked := s.panicked || (publishAll s.chans (fanoutList b (cfg.SendF b.body))).2,
          history := s.history ++ [(b, cfg.SendF b.body)] }).Perm
      (b :: (s.curBatch.toList ++ s.inflight.eraseIdx i ++ s.history.map Prod.fst)) := by
    simp only [sysBatches, List.map_append, List.map_cons, List.map_nil]
    have h3 : (s.history.map Prod.fst ++ [b]).Perm (b :: s.history.map Prod.fst) :=
      List.perm_append_singleton _ _
    have h4 := h3.append_left (s.curBatch.toList ++ s.inflight.eraseIdx i)
    refine h4.trans ?_
    exact List.perm_middle
  have hbperm := hs'B.trans hsB.symm
  have hcperm := hbperm.flatMap_right batchChans
  refine ⟨?_, ?_, ?_, ?_, ?_, ?_, ?_, ?_, ?_⟩
  · exact fun b' hbm => hs.align b' (hbperm.mem_iff.mp hbm)
  · exact fun b' hbm => hs.size_lb b' (hbperm.mem_iff.mp hbm)
  · exact fun b' hbm => hs.size_ub b' (hbperm.mem_iff.mp hbm)
  · exact fun x hx => hs.fresh x (hcperm.mem_iff.mp hx)
  · exact hcperm.nodup_iff.mpr hs.nodup
  · intro b' hbm sub hsub
    dsimp only
    rw [publishAll_payload]
    exact hs.payload b' (hbperm.mem_iff.mp hbm) sub hsub
  · intro e he
    dsimp only at he
    rcases List.mem_append.mp he with he | he
    · exact hs.histRes e he
    · simp only [List.mem_singleton] at he
      subst he
      rfl
  · intro c r hr
    dsimp only at hr ⊢
    rcases publishAll_buf_mem _ _ _ _ hr with hold | hnew
    · obtain ⟨k, b0, res0, i0, sub0, hk, hsub0, hch, hfan⟩ := hs.bufProv c r hold
      have hklt : k < s.history.length := by
        rcases List.getElem?_eq_some.mp hk with ⟨hlt, _⟩
        exact hlt
      exact ⟨k, b0, res0, i0, sub0, by rw [List.getElem?_append_left hklt]; exact hk,
        hsub0, hch, hfan⟩
    · obtain ⟨i0, sub0, hsub0, hch, hfan⟩ := fanoutList_mem hnew
      exact ⟨s.history.length, b, cfg.SendF b.body, i0, sub0,
        List.getElem?_concat_length _ _, hsub0, hch, hfan⟩
  · intro c hcge
    dsimp only at hcge ⊢
    rw [publishAll_of_not_mem _ s.chans
      (fun p hp heq =>
        absurd hcge (not_le.mpr (by rw [← heq]; exact hkeys p hp)))]
    exact hs.pristine c hcge

end Batcher

namespace Batcher

/-- Swapping the first two of three appended lists is a permutation. -/
theorem perm_swap_left_two {β : Type} (l1 l2 l3 : List β) :
    (l1 ++ (l2 ++ l3)).Perm (l2 ++ (l1 ++ l3)) := by
  rw [← List.append_assoc, ← List.append_assoc]
  exact List.perm_append_comm.append_right l3

/-- All invariant obligations of a `registerRequest` result, given the shape
facts the four branches share: the channel store gains one fresh channel,
the allocation counter advances, the history is unchanged, every tracked
batch is an old one, the old open batch extended by the new subscriber, or
the fresh singleton batch, and the mentioned channels gain exactly the new
channel. -/
theorem inv_register_helper {α : Type} {cfg : BatchingConfig α} {s : Sys α}
    (hs : Inv cfg s) (v : α) (s' : Sys α)
    (hchans : s'.chans = fun i =>
      if i = s.nextChan then (⟨[], false, some v⟩ : GoChan α) else s.chans i)
    (hnext : s'.nextChan = s.nextChan + 1)
    (hhist : s'.history = s.history)
    (hmem : ∀ b' ∈ sysBatches s', b' ∈ sysBatches s ∨
        (∃ batch, batch ∈ sysBatches s ∧
          b' = (⟨batch.body ++ [v],
                 batch.subscribers ++ [⟨v, s.nextChan⟩]⟩ : startedBatch α) ∧
          batch.body.length < cfg.MaxBatchSize) ∨
        b' = (⟨[v], [⟨v, s.nextChan⟩]⟩ : startedBatch α))
    (hcperm : (sysChans s').Perm (s.nextChan :: sysChans s)) :
    Inv cfg s' := by
  have hnotin : s.nextChan ∉ sysChans s :=
    fun h => absurd (hs.fresh _ h) (lt_irrefl _)
  have hch_ne : ∀ x ∈ sysChans s, x ≠ s.nextChan :=
    fun x hx h => hnotin (h ▸ hx)
  refine ⟨?_, ?_, ?_, ?_, ?_, ?_, ?_, ?_, ?_⟩
  · intro b' hbm
    rcases hmem b' hbm with h | ⟨batch, hbmem, h, _⟩ | h
    · exact hs.align b' h
    · subst h
      dsimp only
      rw [hs.align batch hbmem, List.map_append]
      rfl
    · subst h
      rfl
  · intro b' hbm
    rcases hmem b' hbm with h | ⟨batch, hbmem, h, _⟩ | h
    · exact hs.size_lb b' h
    · subst h
      simp
    · subst h
      simp
  · intro b' hbm
    rcases hmem b' hbm with h | ⟨batch, hbmem, h, hlt⟩ | h
    · exact hs.size_ub b' h
    · subst h
      simp only [List.length_append, List.length_cons, List.length_nil]
      exact le_trans (Nat.succ_le_of_lt hlt) (le_max_left _ _)
    · subst h
      simp only [List.length_cons, List.length_nil]
      exact le_max_right _ _
  · intro x hx
    rw [hnext]
    rcases List.mem_cons.mp (hcperm.mem_iff.mp hx) with h | h
    · rw [h]
      exact Nat.lt_succ_self _
    · exact Nat.lt_succ_of_lt (hs.fresh x h)
  · refine hcperm.nodup_iff.mpr ?_
    exact List.nodup_cons.mpr ⟨hnotin, hs.nodup⟩
  · intro b' hbm sub hsub
    rw [hchans]
    dsimp only
    rcases hmem b' hbm with h | ⟨batch, hbmem, h, _⟩ | h
    · have hin : sub.respCh ∈ sysChans s :=
        List.mem_flatMap.mpr ⟨b', h, List.mem_map_of_mem _ hsub⟩
      rw [if_neg (hch_ne _ hin)]
      exact hs.payload b' h sub hsub
    · subst h
      dsimp only at hsub
      rcases List.mem_append.mp hsub with hsub | hsub
      · have hin : sub.respCh ∈ sysChans s :=
          List.mem_flatMap.mpr ⟨batch, hbmem, List.mem_map_of_mem _ hsub⟩
        rw [if_neg (hch_ne _ hin)]
        exact hs.payload batch hbmem sub hsub
      · simp only [List.mem_singleton] at hsub
        subst hsub
        simp
    · subst h
      simp only [List.mem_singleton] at hsub
      subst hsub
      simp
  · intro e he
    rw [hhist] at he
    exact hs.histRes e he
  · intro c r hr
    rw [hchans] at hr
    dsimp only at hr
    rw [hhist]
    by_cases hc : c = s.nextChan
    · rw [if_pos hc] at hr
      cases hr
    · rw [if_neg hc] at hr
      exact hs.bufProv c r hr
  · intro x hx
    rw [hnext] at hx
    rw [hchans]
    dsimp only
    have hxne : x ≠ s.nextChan := by
      intro h
      rw [h] at hx
      exact absurd hx (by simp)
    rw [if_neg hxne]
    exact hs.pristine x (le_of_lt (Nat.lt_of_succ_le hx))

end Batcher

namespace Batcher

/-- `registerRequest` when no batch is open: start a singleton batch. -/
theorem registerRequest_eq_none {α : Type} (cfg : BatchingConfig α)
    {s : Sys α} (v : α) (hcur : s.curBatch = none) :
    registerRequest cfg s v =
      ({ s with
          chans := fun i => if i = s.nextChan then
            (⟨[], false, some v⟩ : GoChan α) else s.chans i,
          nextChan := s.nextChan + 1,
          curBatch := some ⟨[v], [⟨v, s.nextChan⟩]⟩ }, .ok s.nextChan) := by
  unfold registerRequest
  rw [hcur]

/-- `registerRequest` appending to a non-filling open batch. -/
theorem registerRequest_eq_append {α : Type} (cfg : BatchingConfig α)
    {s : Sys α} (v : α) {batch : startedBatch α}
    (hcur : s.curBatch = some batch)
    (hlt : batch.body.length < cfg.MaxBatchSize)
    (hnf : ¬ cfg.MaxBatchSize ≤ (batch.body ++ [v]).length) :
    registerRequest cfg s v =
      ({ s with
          chans := fun i => if i = s.nextChan then
            (⟨[], false, some v⟩ : GoChan α) else s.chans i,
          nextChan := s.nextChan + 1,
          curBatch := some ⟨batch.body ++ [v],
            batch.subscribers ++ [⟨v, s.nextChan⟩]⟩ }, .ok s.nextChan) := by
  simp only [registerRequest, hcur, if_pos hlt, if_neg hnf]

/-- `registerRequest` appending to an open batch that the append fills:
detach it for dispatch. -/
theorem registerRequest_eq_fill {α : Type} (cfg : BatchingConfig α)
    {s : Sys α} (v : α) {batch : startedBatch α}
    (hcur : s.curBatch = some batch)
    (hlt : batch.body.length < cfg.MaxBatchSize)
    (hfull : cfg.MaxBatchSize ≤ (batch.body ++ [v]).length) :
    registerRequest cfg s v =
      ({ s with
          chans := fun i => if i = s.nextChan then
            (⟨[], false, some v⟩ : GoChan α) else s.chans i,
          nextChan := s.nextChan + 1,
          curBatch := none,
          inflight := s.inflight ++ [⟨batch.body ++ [v],
            batch.subscribers ++ [⟨v, s.nextChan⟩]⟩] }, .ok s.nextChan) := by
  simp only [registerRequest, hcur, if_pos hlt, if_pos hfull]

/-- `registerRequest` finding an already-full open batch: detach it and
start a fresh singleton batch. -/
theorem registerRequest_eq_overflow {α : Type} (cfg : BatchingConfig α)
    {s : Sys α} (v : α) {batch : startedBatch α}
    (hcur : s.curBatch = some batch)
    (hge : ¬ batch.body.length < cfg.MaxBatchSize) :
    registerRequest cfg s v =
      ({ s with
          chans := fun i => if i = s.nextChan then
            (⟨[], false, some v⟩ : GoChan α) else s.chans i,
          nextChan := s.nextChan + 1,
          curBatch := some ⟨[v], [⟨v, s.nextChan⟩]⟩,
          inflight := s.inflight ++ [batch] }, .ok s.nextChan) := by
  simp only [registerRequest, hcur, if_neg hge]

/-- `registerRequest` preserves the invariant. -/
theorem inv_registerRequest {α : Type} {cfg : BatchingConfig α} {s : Sys α}
    (hs : Inv cfg s) (v : α) : Inv cfg (registerRequest cfg s v).1 := by
  cases hcur : s.curBatch with
  | none =>
    have hsB : sysBatches s = s.inflight ++ s.history.map Prod.fst := by
      simp [sysBatches, hcur]
    rw [registerRequest_eq_none cfg v hcur]
    refine inv_register_helper hs v _ rfl rfl rfl ?_ ?_
    · intro b' hbm
      have hbm' : b' ∈ (⟨[v], [⟨v, s.nextChan⟩]⟩ : startedBatch α) ::
          (s.inflight ++ s.history.map Prod.fst) := by
        simpa [sysBatches] using hbm
      rcases List.mem_cons.mp hbm' with h | h
      · exact Or.inr (Or.inr h)
      · exact Or.inl (by rw [hsB]; exact h)
    · have h1 : sysChans
          ({ s with
              chans := fun i => if i = s.nextChan then
                (⟨[], false, some v⟩ : GoChan α) else s.chans i,
              nextChan := s.nextChan + 1,
              curBatch := some ⟨[v], [⟨v, s.nextChan⟩]⟩ } : Sys α) =
          s.nextChan :: sysChans s := by
        simp [sysChans, sysBatches, hcur, batchChans]
      rw [h1]
  | some batch =>
    have hsB : sysBatches s = batch :: (s.inflight ++ s.history.map Prod.fst) := by
      simp [sysBatches, hcur]
    have hscS : sysChans s = batchChans batch ++
        (s.inflight.flatMap batchChans ++
          (s.history.map Prod.fst).flatMap batchChans) := by
      simp [sysChans, hsB, List.flatMap_cons, List.flatMap_append]
    have hbmem : batch ∈ sysBatches s := by
      rw [hsB]
      exact List.mem_cons_self _ _
    by_cases hlt : batch.body.length < cfg.MaxBatchSize
    · by_cases hfull : cfg.MaxBatchSize ≤ (batch.body ++ [v]).length
      · -- the append fills the batch; it is detached
        rw [registerRequest_eq_fill cfg v hcur hlt hfull]
        refine inv_register_helper hs v _ rfl rfl rfl ?_ ?_
        · intro b' hbm
          have hbm' : b' ∈ (s.inflight ++
              [(⟨batch.body ++ [v],
                 batch.subscribers ++ [⟨v, s.nextChan⟩]⟩ : startedBatch α)]) ++
              s.history.map Prod.fst := by
            simpa [sysBatches] using hbm
          rcases List.mem_append.mp hbm' with h | h
          · rcases List.mem_append.mp h with h | h
            · refine Or.inl ?_
              rw [hsB]
              exact List.mem_cons_of_mem _ (List.mem_append_left _ h)
            · simp only [List.mem_singleton] at h
              exact Or.inr (Or.inl ⟨batch, hbmem, h, hlt⟩)
          · refine Or.inl ?_
            rw [hsB]
            exact List.mem_cons_of_mem _ (List.mem_append_right _ h)
        · have h1 : sysChans
              ({ s with
                  chans := fun i => if i = s.nextChan then
                    (⟨[], false, some v⟩ : GoChan α) else s.chans i,
                  nextChan := s.nextChan + 1,
                  curBatch := none,
                  inflight := s.inflight ++ [⟨batch.body ++ [v],
                    batch.subscribers ++ [⟨v, s.nextChan⟩]⟩] } : Sys α) =
              s.inflight.flatMap batchChans ++
                (batchChans batch ++ (s.nextChan ::
                  (s.history.map Prod.fst).flatMap batchChans)) := by
            simp [sysChans, sysBatches, batchChans, List.flatMap_append,
              List.flatMap_cons, List.map_append, List.append_assoc]
          rw [h1, hscS]
          have p1 : (batchChans batch ++ (s.nextChan ::
              (s.history.map Prod.fst).flatMap batchChans)).Perm
              (s.nextChan :: (batchChans batch ++
                (s.history.map Prod.fst).flatMap batchChans)) :=
            List.perm_middle
          have p2 := p1.append_left (s.inflight.flatMap batchChans)
          refine p2.trans ?_
          have p3 : (s.inflight.flatMap batchChans ++ (s.nextChan ::
              (batchChans batch ++
                (s.history.map Prod.fst).flatMap batchChans))).Perm
              (s.nextChan :: (s.inflight.flatMap batchChans ++
                (batchChans batch ++
                  (s.history.map Prod.fst).flatMap batchChans))) :=
            List.perm_middle
          refine p3.trans ?_
          exact (perm_swap_left_two _ _ _).cons _
      · -- plain append
        rw [registerRequest_eq_append cfg v hcur hlt hfull]
        refine inv_register_helper hs v _ rfl rfl rfl ?_ ?_
        · intro b' hbm
          have hbm' : b' ∈ (⟨batch.body ++ [v],
              batch.subscribers ++ [⟨v, s.nextChan⟩]⟩ : startedBatch α) ::
              (s.inflight ++ s.history.map Prod.fst) := by
            simpa [sysBatches] using hbm
          rcases List.mem_cons.mp hbm' with h | h
          · exact Or.inr (Or.inl ⟨batch, hbmem, h, hlt⟩)
          · exact Or.inl (by rw [hsB]; exact List.mem_cons_of_mem _ h)
        · have h1 : sysChans
              ({ s with
                  chans := fun i => if i = s.nextChan then
                    (⟨[], false, some v⟩ : GoChan α) else s.chans i,
                  nextChan := s.nextChan + 1,
                  curBatch := some ⟨batch.body ++ [v],
                    batch.subscribers ++ [⟨v, s.nextChan⟩]⟩ } : Sys α) =
              batchChans batch ++ (s.nextChan ::
                (s.inflight.flatMap batchChans ++
                  (s.history.map Prod.fst).flatMap batchChans)) := by
            simp [sysChans, sysBatches, batchChans, List.flatMap_append,
              List.flatMap_cons, List.map_append, List.append_assoc]
          rw [h1, hscS]
          exact List.perm_middle
    · -- the open batch is already full: detach it, open a singleton batch
      rw [registerRequest_eq_overflow cfg v hcur hlt]
      refine inv_register_helper hs v _ rfl rfl rfl ?_ ?_
      · intro b' hbm
        have hbm' : b' ∈ (⟨[v], [⟨v, s.nextChan⟩]⟩ : startedBatch α) ::
            ((s.inflight ++ [batch]) ++ s.history.map Prod.fst) := by
          simpa [sysBatches] using hbm
        rcases List.mem_cons.mp hbm' with h | h
        · exact Or.inr (Or.inr h)
        · rcases List.mem_append.mp h with h | h
          · rcases List.mem_append.mp h with h | h
            · refine Or.inl ?_
              rw [hsB]
              exact List.mem_cons_of_mem _ (List.mem_append_left _ h)
            · simp only [List.mem_singleton] at h
              refine Or.inl ?_
              rw [hsB, h]
              exact List.mem_cons_self _ _
          · refine Or.inl ?_
            rw [hsB]
            exact List.mem_cons_of_mem _ (List.mem_append_right _ h)
      · have h1 : sysChans
            ({ s with
                chans := fun i => if i = s.nextChan then
                  (⟨[], false, some v⟩ : GoChan α) else s.chans i,
                nextChan := s.nextChan + 1,
                curBatch := some ⟨[v], [⟨v, s.nextChan⟩]⟩,
                inflight := s.inflight ++ [batch] } : Sys α) =
            s.nextChan :: (s.inflight.flatMap batchChans ++
              (batchChans batch ++
                (s.history.map Prod.fst).flatMap batchChans)) := by
          simp [sysChans, sysBatches, batchChans, List.flatMap_append,
            List.flatMap_cons, List.map_append, List.append_assoc]
        rw [h1, hscS]
        exact (perm_swap_left_two _ _ _).cons _

/-- The initial state satisfies the invariant. -/
theorem inv_init {α : Type} (cfg : BatchingConfig α) : Inv cfg (init (α := α)) := by
  refine ⟨?_, ?_, ?_, ?_, ?_, ?_, ?_, ?_, ?_⟩ <;>
    simp [sysBatches, sysChans, init]

/-- Every step preserves the invariant. -/
theorem inv_step {α : Type} {cfg : BatchingConfig α} {s s' : Sys α} {e : Ev α}
    (hs : Inv cfg s) (h : step cfg s e = some s') : Inv cfg s' := by
  cases e with
  | submit v =>
    cases h
    exact inv_registerRequest hs v
  | timerFire =>
    cases h
    exact inv_sendCurBatchWithSafety hs
  | run i =>
    unfold step at h
    dsimp only at h
    cases hb : s.inflight[i]? with
    | none =>
      rw [hb] at h
      cases h
    | some b =>
      rw [hb] at h
      dsimp only at h
      cases h
      exact inv_run hs hb
  | ctxCancel =>
    unfold step at h
    dsimp only at h
    by_cases hr : s.running = true
    · rw [if_pos hr] at h
      cases h
      exact inv_stop hs
    · rw [if_neg hr] at h
      cases h

/-- Every reachable state satisfies the invariant. -/
theorem inv_of_reachable {α : Type} {cfg : BatchingConfig α} {s : Sys α}
    (h : Reachable cfg s) : Inv cfg s := by
  induction h with
  | init => exact inv_init cfg
  | step hr hstep ih => exact inv_step ih hstep

end Batcher

namespace Batcher

/-- An `ok` outcome of the select can only come from receiving a buffered
response. -/
theorem awaitResponse_ok_cases {α : Type} {fmtDur : Int → GoStr}
    {ch : GoChan α} {ctxDone : Bool} {t : Int} {pickCh : Bool} {w : Option α}
    (h : awaitResponse fmtDur ch ctxDone t pickCh = some (.ok w)) :
    recvResult ch = .ok w := by
  unfold awaitResponse at h
  dsimp only at h
  split at h
  · split at h
    · exact Option.some.inj h
    · cases Option.some.inj h
  · split at h
    · exact Option.some.inj h
    · split at h
      · cases Option.some.inj h
      · cases h

/-- A received `ok` outcome is the head buffered response, which has no
error. -/
theorem recvResult_ok {α : Type} {ch : GoChan α} {w : Option α}
    (h : recvResult ch = .ok w) :
    ∃ r rest, ch.buf = r :: rest ∧ r.err = none ∧ w = r.body := by
  unfold recvResult at h
  cases hbuf : ch.buf with
  | nil =>
    rw [hbuf] at h
    cases h
  | cons r0 rest =>
    rw [hbuf] at h
    dsimp only at h
    cases herr : r0.err with
    | some e =>
      rw [herr] at h
      exact CallResult.noConfusion h
    | none =>
      rw [herr] at h
      exact ⟨r0, rest, rfl, herr, (CallResult.ok.inj h).symm⟩

/-- C5: assuming `MaxBatchSize ≥ 1`, every batch handed to an invocation of
SendF has between 1 and MaxBatchSize payloads, and at every moment — for
completed invocations, detached batches awaiting dispatch, and the open
batch — the payload slice and the subscriber slice have equal length. -/
theorem c5_batch_size_bounds {α : Type} (cfg : BatchingConfig α)
    (hmax : 1 ≤ cfg.MaxBatchSize) (s : Sys α) (h : Reachable cfg s) :
    (∀ e ∈ s.history, 1 ≤ e.1.body.length ∧
      e.1.body.length ≤ cfg.MaxBatchSize ∧
      e.1.body.length = e.1.subscribers.length) ∧
    (∀ b ∈ s.inflight, 1 ≤ b.body.length ∧
      b.body.length ≤ cfg.MaxBatchSize ∧
      b.body.length = b.subscribers.length) ∧
    (∀ b, s.curBatch = some b → 1 ≤ b.body.length ∧
      b.body.length ≤ cfg.MaxBatchSize ∧
      b.body.length = b.subscribers.length) := by
  have hinv := inv_of_reachable h
  have hmax' : max cfg.MaxBatchSize 1 = cfg.MaxBatchSize := max_eq_left hmax
  have key : ∀ b ∈ sysBatches s, 1 ≤ b.body.length ∧
      b.body.length ≤ cfg.MaxBatchSize ∧
      b.body.length = b.subscribers.length := by
    intro b hb
    refine ⟨hinv.size_lb b hb, ?_, ?_⟩
    · rw [← hmax']
      exact hinv.size_ub b hb
    · rw [hinv.align b hb]
      simp
  refine ⟨?_, ?_, ?_⟩
  · intro e he
    refine key e.1 ?_
    show e.1 ∈ s.curBatch.toList ++ s.inflight ++ s.history.map Prod.fst
    exact List.mem_append_right _ (List.mem_map_of_mem Prod.fst he)
  · intro b hb
    refine key b ?_
    show b ∈ s.curBatch.toList ++ s.inflight ++ s.history.map Prod.fst
    exact List.mem_append_left _ (List.mem_append_right _ hb)
  · intro b hb
    refine key b ?_
    simp [sysBatches, hb]

/-- A state reached by a short trace that fills and dispatches one batch and
leaves another open. -/
def c5WitState : Sys Nat :=
  (runTrace cfgId2 init [.submit 5, .submit 6, .run 0, .submit 7]).getD init

/-- Witness for C5 at a concrete reachable state. -/
theorem c5_witness :
    (∀ e ∈ c5WitState.history, 1 ≤ e.1.body.length ∧
      e.1.body.length ≤ cfgId2.MaxBatchSize ∧
      e.1.body.length = e.1.subscribers.length) ∧
    (∀ b ∈ c5WitState.inflight, 1 ≤ b.body.length ∧
      b.body.length ≤ cfgId2.MaxBatchSize ∧
      b.body.length = b.subscribers.length) ∧
    (∀ b, c5WitState.curBatch = some b → 1 ≤ b.body.length ∧
      b.body.length ≤ cfgId2.MaxBatchSize ∧
      b.body.length = b.subscribers.length) :=
  c5_batch_size_bounds cfgId2 (by decide) c5WitState
    (reachable_runTrace cfgId2 [.submit 5, .submit 6, .run 0, .submit 7]
      init c5WitState Reachable.init rfl)

/-- C7: if the configured SendF is the identity on its input slice, then
every buffered response carries no error and is exactly the payload its
caller submitted, so a call that completes without timing out returns
exactly its request body. -/
theorem c7_identity_handler_roundtrip {α : Type} (cfg : BatchingConfig α)
    (hid : ∀ l, cfg.SendF l = .ok l) (s : Sys α) (h : Reachable cfg s)
    (c : Nat) :
    (∀ r ∈ (s.chans c).buf, r.err = none ∧
      r.body = (s.chans c).payload ∧ (s.chans c).payload ≠ none) ∧
    (∀ (fmtDur : Int → GoStr) (ctxDone : Bool) (t : Int) (pickCh : Bool)
      (w : Option α),
      awaitResponse fmtDur (s.chans c) ctxDone t pickCh = some (.ok w) →
      w = (s.chans c).payload ∧ (s.chans c).payload ≠ none) := by
  have hinv := inv_of_reachable h
  have main : ∀ r ∈ (s.chans c).buf, r.err = none ∧
      r.body = (s.chans c).payload ∧ (s.chans c).payload ≠ none := by
    intro r hr
    obtain ⟨k, b, res, i, sub, hk, hsub, hch, hfan⟩ := hinv.bufProv c r hr
    have hbmem : b ∈ sysBatches s := by
      have hbm : b ∈ s.history.map Prod.fst := by
        have := List.getElem?_mem hk
        exact List.mem_map_of_mem Prod.fst this
      show b ∈ s.curBatch.toList ++ s.inflight ++ s.history.map Prod.fst
      exact List.mem_append_right _ hbm
    have hres : res = cfg.SendF b.body :=
      hinv.histRes (b, res) (List.getElem?_mem hk)
    rw [hid b.body] at hres
    subst hres
    have hbody : b.body[i]? = some sub.singleRequestBody := by
      rw [hinv.align b hbmem, List.getElem?_map, hsub]
      rfl
    unfold fanoutResp at hfan
    dsimp only at hfan
    rw [if_pos rfl, hbody] at hfan
    have hr_eq : r = ⟨some sub.singleRequestBody, none⟩ :=
      (Option.some.inj hfan).symm
    have hpay : (s.chans c).payload = some sub.singleRequestBody := by
      rw [← hch]
      exact hinv.payload b hbmem sub (List.getElem?_mem hsub)
    subst hr_eq
    refine ⟨rfl, ?_, ?_⟩
    · rw [hpay]
    · rw [hpay]
      exact Option.noConfusion
  refine ⟨main, ?_⟩
  intro fmtDur ctxDone t pickCh w hw
  obtain ⟨r, rest, hbuf, herr, hwr⟩ := recvResult_ok (awaitResponse_ok_cases hw)
  have hmem : r ∈ (s.chans c).buf := by
    rw [hbuf]
    exact List.mem_cons_self _ _
  obtain ⟨_, hbody, hne⟩ := main r hmem
  exact ⟨hwr.trans hbody, hne⟩

/-- The state after two submissions fill a batch and its dispatch runs with
the identity handler. -/
def c1WitState : Sys Nat :=
  (runTrace cfgId2 init [.submit 5, .submit 6, .run 0]).getD init

/-- Witness for C7 at a concrete reachable state. -/
theorem c7_witness :
    (∀ r ∈ (c1WitState.chans 0).buf, r.err = none ∧
      r.body = (c1WitState.chans 0).payload ∧
      (c1WitState.chans 0).payload ≠ none) ∧
    (∀ (fmtDur : Int → GoStr) (ctxDone : Bool) (t : Int) (pickCh : Bool)
      (w : Option Nat),
      awaitResponse fmtDur (c1WitState.chans 0) ctxDone t pickCh
          = some (.ok w) →
      w = (c1WitState.chans 0).payload ∧
      (c1WitState.chans 0).payload ≠ none) :=
  c7_identity_handler_roundtrip cfgId2 (fun _ => rfl) c1WitState
    (reachable_runTrace cfgId2 [.submit 5, .submit 6, .run 0]
      init c1WitState Reachable.init rfl) 0

end Batcher

namespace Batcher

/-- C1: a successful result is routed by position from exactly one SendF
invocation.  Part one: every buffered success response on a channel comes
from the unique completed SendF invocation among whose subscribers the
channel appears, at the channel's own index: the caller's request body sat
at that index of the invocation's input and the response is the element at
the same index of the slice SendF returned.  Part two: when SendF returns a
slice of matching length, running the dispatch delivers element `i` to
subscriber `i` and closes every subscriber's channel, with no panic. -/
theorem c1_response_routing {α : Type} :
    (∀ (cfg : BatchingConfig α) (s : Sys α), Reachable cfg s →
      ∀ (c : Nat) (r : singleResponse α), r ∈ (s.chans c).buf → r.err = none →
      ∃ (k i : Nat) (b : startedBatch α) (out : List α) (p v : α),
        s.history[k]? = some (b, .ok out) ∧
        out.length = b.body.length ∧
        b.subscribers[i]? = some ⟨p, c⟩ ∧
        b.body[i]? = some p ∧
        (s.chans c).payload = some p ∧
        out[i]? = some v ∧ r.body = some v ∧
        (∀ (k' i' : Nat) (b' : startedBatch α) (res' : Except GoStr (List α))
          (sub' : batchSubscriber α),
          s.history[k']? = some (b', res') →
          b'.subscribers[i']? = some sub' → sub'.respCh = c →
          k' = k ∧ i' = i) ∧
        (∀ b' ∈ s.inflight, ∀ sub' ∈ b'.subscribers, sub'.respCh ≠ c) ∧
        (∀ b', s.curBatch = some b' →
          ∀ sub' ∈ b'.subscribers, sub'.respCh ≠ c)) ∧
    (∀ (cfg : BatchingConfig α) (s : Sys α), Reachable cfg s →
      ∀ (i : Nat) (b : startedBatch α), s.inflight[i]? = some b →
      ∀ out : List α, cfg.SendF b.body = .ok out →
      out.length = b.body.length →
      (∀ sub ∈ b.subscribers, (s.chans sub.respCh).closed = false) →
      ∀ s' : Sys α, step cfg s (.run i) = some s' →
      s'.panicked = s.panicked ∧
      (∀ (j : Nat) (sub : batchSubscriber α), b.subscribers[j]? = some sub →
        ∃ v, out[j]? = some v ∧
          (s'.chans sub.respCh).buf
            = (s.chans sub.respCh).buf ++ [⟨some v, none⟩] ∧
          (s'.chans sub.respCh).closed = true)) := by
  constructor
  · intro cfg s h c r hr herr
    have hinv := inv_of_reachable h
    obtain ⟨k, b, res, i, sub, hk, hsub, hch, hfan⟩ := hinv.bufProv c r hr
    obtain ⟨out, hout, hlen, v, hv, hrbody⟩ :
        ∃ out, res = .ok out ∧ out.length = b.body.length ∧
          ∃ v, out[i]? = some v ∧ r.body = some v := by
      cases res with
      | error e =>
        unfold fanoutResp at hfan
        dsimp only at hfan
        have h1 := Option.some.inj hfan
        rw [← h1] at herr
        exact Option.noConfusion herr
      | ok out =>
        unfold fanoutResp at hfan
        dsimp only at hfan
        by_cases hl : out.length = b.body.length
        · rw [if_pos hl] at hfan
          cases hvv : out[i]? with
          | none =>
            rw [hvv] at hfan
            cases hfan
          | some v =>
            rw [hvv] at hfan
            have h5 := Option.some.inj hfan
            exact ⟨out, rfl, hl, v, hvv, by rw [← h5]⟩
        · rw [if_neg hl] at hfan
          have h1 := Option.some.inj hfan
          rw [← h1] at herr
          exact Option.noConfusion herr
    subst hout
    obtain ⟨p0, c0⟩ := sub
    dsimp only at hch
    subst hch
    have hbmem : b ∈ sysBatches s := by
      show b ∈ s.curBatch.toList ++ s.inflight ++ s.history.map Prod.fst
      exact List.mem_append_right _
        (List.mem_map_of_mem Prod.fst (List.getElem?_mem hk))
    have hbody : b.body[i]? = some p0 := by
      rw [hinv.align b hbmem, List.getElem?_map, hsub]
      rfl
    have hpay : (s.chans c0).payload = some p0 :=
      hinv.payload b hbmem ⟨p0, c0⟩ (List.getElem?_mem hsub)
    have hscEq : sysChans s = (s.curBatch.toList.flatMap batchChans ++
        s.inflight.flatMap batchChans) ++
        (s.history.map Prod.fst).flatMap batchChans := by
      simp [sysChans, sysBatches, List.flatMap_append]
    have hnd := hinv.nodup
    rw [hscEq] at hnd
    obtain ⟨hndL, hndH, hdisj⟩ := List.nodup_append.mp hnd
    have hkb : (s.history.map Prod.fst)[k]? = some b := by
      rw [List.getElem?_map, hk]
      rfl
    have hcin : c0 ∈ batchChans b := by
      unfold batchChans
      refine List.mem_iff_getElem?.mpr ⟨i, ?_⟩
      rw [List.getElem?_map, hsub]
      rfl
    have hcH : c0 ∈ (s.history.map Prod.fst).flatMap batchChans :=
      List.mem_flatMap.mpr ⟨b, List.getElem?_mem hkb, hcin⟩
    refine ⟨k, i, b, out, p0, v, hk, hlen, hsub, hbody, hpay, hv, hrbody,
      ?_, ?_, ?_⟩
    · intro k' i' b' res' sub' hk' hsub' hch'
      have hkb' : (s.history.map Prod.fst)[k']? = some b' := by
        rw [List.getElem?_map, hk']
        rfl
      have hcin' : c0 ∈ batchChans b' := by
        unfold batchChans
        refine List.mem_iff_getElem?.mpr ⟨i', ?_⟩
        rw [List.getElem?_map, hsub']
        simp [hch']
      have hkk : k' = k := nodup_flatMap_eq_of_mem hndH hkb' hkb hcin' hcin
      subst hkk
      have hpairEq : (b', res') = (b, Except.ok out) :=
        Option.some.inj (hk'.symm.trans hk)
      have hb'b : b = b' := (congrArg Prod.fst hpairEq).symm
      subst hb'b
      refine ⟨rfl, ?_⟩
      have hbnod : (batchChans b).Nodup :=
        nodup_flatMap_chunk hndH (List.getElem?_mem hkb)
      have hgi : (batchChans b)[i]? = some c0 := by
        unfold batchChans
        rw [List.getElem?_map, hsub]
        rfl
      have hgi' : (batchChans b)[i']? = some c0 := by
        unfold batchChans
        rw [List.getElem?_map, hsub']
        simp [hch']
      have hilt : i' < (batchChans b).length := by
        rcases List.getElem?_eq_some.mp hgi' with ⟨hlt, _⟩
        exact hlt
      exact List.getElem?_inj hilt hbnod (hgi'.trans hgi.symm)
    · intro b' hbin sub' hsub' hch'
      have hcL : c0 ∈ s.curBatch.toList.flatMap batchChans ++
          s.inflight.flatMap batchChans := by
        refine List.mem_append_right _ (List.mem_flatMap.mpr ⟨b', hbin, ?_⟩)
        unfold batchChans
        rw [← hch']
        exact List.mem_map_of_mem _ hsub'
      exact hdisj hcL hcH
    · intro b' hb' sub' hsub' hch'
      have hcL : c0 ∈ s.curBatch.toList.flatMap batchChans ++
          s.inflight.flatMap batchChans := by
        refine List.mem_append_left _ (List.mem_flatMap.mpr ⟨b', ?_, ?_⟩)
        · simp [hb']
        · unfold batchChans
          rw [← hch']
          exact List.mem_map_of_mem _ hsub'
      exact hdisj hcL hcH
  · intro cfg s h i b hb out hsf hlen hopen s' hstep
    have hinv := inv_of_reachable h
    unfold step at hstep
    dsimp only at hstep
    rw [hb] at hstep
    dsimp only at hstep
    cases hstep
    have hbmem : b ∈ sysBatches s := by
      show b ∈ s.curBatch.toList ++ s.inflight ++ s.history.map Prod.fst
      exact List.mem_append_left _
        (List.mem_append_right _ (List.getElem?_mem hb))
    have hslen : b.subscribers.length = b.body.length := by
      rw [hinv.align b hbmem]
      simp
    have hbnod : (batchChans b).Nodup := nodup_flatMap_chunk hinv.nodup hbmem
    have hknod : ((fanoutList b (.ok out)).map Prod.fst).Nodup := by
      rw [fanoutList_map_fst b _ hslen]
      exact List.nodup_reverse.mpr hbnod
    have hopen' : ∀ p ∈ fanoutList b (.ok out),
        (s.chans p.1).closed = false := by
      intro p hp
      have hpm : p.1 ∈ (batchChans b).reverse := by
        rw [← fanoutList_map_fst b (.ok out) hslen]
        exact List.mem_map_of_mem _ hp
      rw [List.mem_reverse] at hpm
      obtain ⟨sub, hsubm, hrespc⟩ := List.mem_map.mp hpm
      rw [← hrespc]
      exact hopen sub hsubm
    obtain ⟨hp2, hp1⟩ := publishAll_exact _ s.chans hknod hopen'
    constructor
    · rw [send_eq]
      dsimp only
      rw [hsf, hp2, Bool.or_false]
    · intro j sub hj
      obtain ⟨v, hvj, hpair⟩ := fanoutList_ok_pair hlen hslen hj
      have hx := hp1 _ hpair
      dsimp only at hx
      refine ⟨v, hvj, ?_, ?_⟩
      · rw [send_eq]
        dsimp only
        rw [hsf, hx]
      · rw [send_eq]
        dsimp only
        rw [hsf, hx]

end Batcher

namespace Batcher

/-- The state just before the dispatch of `c1WitState` runs. -/
def c1WitPre : Sys Nat :=
  (runTrace cfgId2 init [.submit 5, .submit 6]).getD init

/-- Witness for C1 at concrete inputs: both parts applied to a two-element
identity batch. -/
theorem c1_witness :
    (∃ (k i : Nat) (b : startedBatch Nat) (out : List Nat) (p v : Nat),
      c1WitState.history[k]? = some (b, .ok out) ∧
      out.length = b.body.length ∧
      b.subscribers[i]? = some ⟨p, 0⟩ ∧
      b.body[i]? = some p ∧
      (c1WitState.chans 0).payload = some p ∧
      out[i]? = some v ∧
      (⟨some 5, none⟩ : singleResponse Nat).body = some v ∧
      (∀ (k' i' : Nat) (b' : startedBatch Nat)
        (res' : Except GoStr (List Nat)) (sub' : batchSubscriber Nat),
        c1WitState.history[k']? = some (b', res') →
        b'.subscribers[i']? = some sub' → sub'.respCh = 0 →
        k' = k ∧ i' = i) ∧
      (∀ b' ∈ c1WitState.inflight, ∀ sub' ∈ b'.subscribers,
        sub'.respCh ≠ 0) ∧
      (∀ b', c1WitState.curBatch = some b' →
        ∀ sub' ∈ b'.subscribers, sub'.respCh ≠ 0)) ∧
    (c1WitState.panicked = c1WitPre.panicked ∧
      (∀ (j : Nat) (sub : batchSubscriber Nat),
        (⟨[5, 6], [⟨5, 0⟩, ⟨6, 1⟩]⟩ : startedBatch Nat).subscribers[j]?
            = some sub →
        ∃ v, [5, 6][j]? = some v ∧
          (c1WitState.chans sub.respCh).buf
            = (c1WitPre.chans sub.respCh).buf ++ [⟨some v, none⟩] ∧
          (c1WitState.chans sub.respCh).closed = true)) :=
  ⟨c1_response_routing.1 cfgId2 c1WitState
      (reachable_runTrace cfgId2 [.submit 5, .submit 6, .run 0] init
        c1WitState Reachable.init rfl)
      0 ⟨some 5, none⟩ (by decide) rfl,
   c1_response_routing.2 cfgId2 c1WitPre
      (reachable_runTrace cfgId2 [.submit 5, .submit 6] init c1WitPre
        Reachable.init rfl)
      0 ⟨[5, 6], [⟨5, 0⟩, ⟨6, 1⟩]⟩ (by decide) [5, 6] rfl rfl (by decide)
      c1WitState rfl⟩

end Batcher
